import Mathlib

/-!
Verification development for the georeferenced 3D overlay engine in
`src/components/Map3D.tsx` (footprint generators, feature store operations,
three.js mesh lifecycle manager, per-mesh animation closures, camera sync
bridge).

Modelling conventions:
* JavaScript numbers are modelled by `ℚ`.  The transcendental functions
  `Math.cos` / `Math.sin` are opaque IEEE approximations, so every geometric
  definition is parametrised by the (pre-composed) trig functions it uses:
  `cosDeg x` stands for `Math.cos (x * Math.PI / 180)`, and `cosTurn x` for
  `Math.cos (x * 2 * Math.PI)`.  All properties proved here are independent
  of the trig values, so the theorems quantify over these parameters.
* The JavaScript falsy-coalescing `a || b` on numbers is `jsOr` (0 falls
  through), and the remainder operator `%` is `jsRem` (truncated division,
  sign of the dividend).
* Mutable mesh objects shared between the scene, the id→mesh `Map` and the
  `requestAnimationFrame` closures are modelled by a heap: a list of
  token-keyed `MeshData` records; the scene and the index store tokens.
-/

namespace MapOverlay

/-- JavaScript `a || b` restricted to numbers: `0` is falsy. -/
def jsOr (a b : ℚ) : ℚ := if a = 0 then b else a

/-- Truncation toward zero, as JavaScript division-based remainders use. -/
def ratTrunc (q : ℚ) : ℤ := if 0 ≤ q then ⌊q⌋ else ⌈q⌉

/-- JavaScript `x % y`: remainder with the sign of the dividend
(`x - y * trunc (x / y)`). -/
def jsRem (x y : ℚ) : ℚ := x - y * (ratTrunc (x / y) : ℚ)

/-- Models `metersToLatDegrees` from Map3D.tsx. -/
def metersToLatDegrees (meters : ℚ) : ℚ := meters / 111320

/-- Models `metersToLngDegrees` from Map3D.tsx; `cosDeg lat` models
`Math.cos (lat * Math.PI / 180)`. -/
def metersToLngDegrees (cosDeg : ℚ → ℚ) (meters lat : ℚ) : ℚ :=
  meters / (111320 * cosDeg lat)

/-- Models `rectanglePolygonAround` from Map3D.tsx: four axis-aligned corners in
meters, converted to degree offsets, rotated in the local plane, translated
to the center, and closed by appending the first coordinate. -/
def rectanglePolygonAround (cosDeg sinDeg : ℚ → ℚ)
    (lng lat widthMeters depthMeters rotationDeg : ℚ) : List (ℚ × ℚ) :=
  let hw := widthMeters / 2
  let hd := depthMeters / 2
  let lcl : List (ℚ × ℚ) := [(-hw, -hd), (hw, -hd), (hw, hd), (-hw, hd)]
  let c := cosDeg rotationDeg
  let s := sinDeg rotationDeg
  let coords := lcl.map (fun p =>
    let dLng := metersToLngDegrees cosDeg p.1 lat
    let dLat := metersToLatDegrees p.2
    (lng + (dLng * c - dLat * s), lat + (dLng * s + dLat * c)))
  coords ++ coords.take 1

/-- Models `circlePolygonAround` from Map3D.tsx: samples `segments` points around
the radius and closes the ring by pushing the first coordinate again.
`cosTurn f` models `Math.cos (f * 2 * Math.PI)`.  The source performs no
validation of `segments` whatsoever.  (For `segments = 0` the source pushes
`coords[0] = undefined`; here the closing point is simply absent, which no
theorem below relies on.) -/
def circlePolygonAround (cosDeg cosTurn sinTurn : ℚ → ℚ)
    (lng lat radiusMeters : ℚ) (segments : ℕ) : List (ℚ × ℚ) :=
  let coords := (List.range segments).map (fun (i : ℕ) =>
    let frac : ℚ := (i : ℚ) / (segments : ℚ)
    let dx := cosTurn frac * radiusMeters
    let dy := sinTurn frac * radiusMeters
    (lng + metersToLngDegrees cosDeg dx lat, lat + metersToLatDegrees dy))
  coords ++ coords.take 1

/-- Models `polygonCentroidCoords` from Map3D.tsx: average of the ring with the
closing coordinate sliced off. -/
def polygonCentroidCoords (coords : List (ℚ × ℚ)) : ℚ × ℚ :=
  let ring := coords.dropLast
  ((ring.map Prod.fst).sum / ring.length, (ring.map Prod.snd).sum / ring.length)

/-- Models `polygonCentroid` from Map3D.tsx — the source contains a second copy of
the centroid helper with an identical body. -/
def polygonCentroid (coords : List (ℚ × ℚ)) : ℚ × ℚ := polygonCentroidCoords coords

/-- Bounding box record produced by `polygonBBox`. -/
structure BBox where
  minLng : ℚ
  minLat : ℚ
  maxLng : ℚ
  maxLat : ℚ
deriving DecidableEq

/-- Models `polygonBBox` from Map3D.tsx: min/max fold over the coordinates.  The
source starts from `±Infinity`; for a nonempty list (the only case any
caller produces) that equals folding from the first coordinate, which is
what we do.  The empty case returns a degenerate zero box. -/
def polygonBBox (coords : List (ℚ × ℚ)) : BBox :=
  match coords with
  | [] => ⟨0, 0, 0, 0⟩
  | c :: rest =>
    rest.foldl (fun (b : BBox) p =>
      ⟨min b.minLng p.1, min b.minLat p.2, max b.maxLng p.1, max b.maxLat p.2⟩)
      ⟨c.1, c.2, c.1, c.2⟩

/-- Models `easeOutCubic` from Map3D.tsx (also inlined in both animation closures):
`1 - (1 - t)^3`. -/
def easeOutCubic (t : ℚ) : ℚ := 1 - (1 - t) ^ 3

/-! ## Feature store data model

`BuildingFeature` from Map3D.tsx: a GeoJSON polygon feature with optional
properties.  Only the outer ring (`geometry.coordinates[0]`) is ever read by
the engine, so the model stores just that ring.  Tree features carry no mesh
and are not involved in any claim, so they are not modelled. -/
structure Feature where
  id : Option String
  height : Option ℚ
  base : Option ℚ
  color : Option String
  rotation : Option ℚ
  content : Option String
  ring : List (ℚ × ℚ)
deriving DecidableEq

instance : Inhabited Feature := ⟨⟨none, none, none, none, none, none, []⟩⟩

/-! ## Mesh lifecycle manager state

Mesh objects are shared mutable state: the scene, the `meshes` map and the
in-flight `requestAnimationFrame` closures all alias the same object.  We
model the object graph with an explicit heap keyed by allocation tokens. -/

/-- Mutable state of one `THREE.Mesh` that the engine reads or writes:
`userData.id`, the baked extrusion depth, `scale.z`, `userData.heightMeters`
and the material color.  (Material emissive blinking, shadows and the
geometry vertex data are never consulted by any claim and are omitted.) -/
structure MeshData where
  fid : String
  bakedDepth : ℚ
  scaleZ : ℚ
  heightMeters : ℚ
  color : String
deriving DecidableEq

/-- Kind of an animation closure: the rise-in started by `addMeshForFeature`
or the height retarget started by `updateHeight`. -/
inductive AnimKind where
  | rise
  | height
deriving DecidableEq

/-- Lifecycle state of an animation task (spec §4.6 state machine).  The
source never cancels a closure, so `Cancelled` is never produced; it is part
of the state space so that this fact is expressible. -/
inductive TaskState where
  | Active
  | Completed
  | Cancelled
deriving DecidableEq

/-- One in-flight `requestAnimationFrame` animation closure, with the
constants captured by the closure in the source (`start`, `dur`, `from`,
`to`) and the mesh object (token) it writes to. -/
structure AnimTask where
  token : ℕ
  fid : String
  kind : AnimKind
  start : ℚ
  dur : ℚ
  fromVal : ℚ
  toVal : ℚ
  state : TaskState
deriving DecidableEq

/-- State owned by `createThreeLayerManager`: the allocation counter, the
heap of live mesh objects, `scene.children` (mesh tokens, in add order),
the `meshes : Map<string, Mesh>` index as an association list in insertion
order, and the set of animation closures ever scheduled. -/
structure World where
  nextToken : ℕ
  heap : List (ℕ × MeshData)
  scene : List ℕ
  idx : List (String × ℕ)
  anims : List AnimTask
deriving DecidableEq

/-- The manager state right after `createThreeLayerManager`. -/
def initWorld : World := ⟨0, [], [], [], []⟩

/-- Heap lookup by token. -/
def heapGet (h : List (ℕ × MeshData)) (t : ℕ) : Option MeshData :=
  (h.find? (fun p => p.1 = t)).map Prod.snd

/-- In-place mutation of the mesh object at a token. -/
def heapModify (h : List (ℕ × MeshData)) (t : ℕ) (f : MeshData → MeshData) :
    List (ℕ × MeshData) :=
  h.map (fun p => if p.1 = t then (p.1, f p.2) else p)

/-- Models `Map.get` on the id→mesh index. -/
def idxGet (l : List (String × ℕ)) (k : String) : Option ℕ :=
  (l.find? (fun p => p.1 = k)).map Prod.snd

/-- Models `Map.delete` on the id→mesh index (keys are unique in a JS `Map`, so
removing every pair with the key removes exactly the entry, if present). -/
def idxDelete (l : List (String × ℕ)) (k : String) : List (String × ℕ) :=
  l.filter (fun p => ¬ p.1 = k)

/-- Models `Map.set` on the id→mesh index: overwrite in place when the key exists,
append otherwise. -/
def idxSet (l : List (String × ℕ)) (k : String) (v : ℕ) : List (String × ℕ) :=
  if (l.find? (fun p => p.1 = k)).isSome then
    l.map (fun p => if p.1 = k then (k, v) else p)
  else l ++ [(k, v)]

/-- Models `buildMeshFromPolygon` from Map3D.tsx, reduced to the fields the engine
later reads.  `mtm` is the host value `meterInMercatorCoordinateUnits` sampled at
the polygon centroid.  The baked extrusion depth is
`(heightMeters / meterToMerc) || heightMeters` and then `depth || 1`
(JS falsiness on numbers).  `scale.z` of a fresh mesh is 1; `userData` is
filled in by the caller. -/
def buildMeshFromPolygon (mtm : ℚ × ℚ → ℚ) (polygonCoords : List (ℚ × ℚ))
    (heightMeters : ℚ) (colorHex : String) : MeshData :=
  let center := polygonCentroidCoords polygonCoords
  let meterToMerc := mtm center
  let depth := jsOr (heightMeters / meterToMerc) heightMeters
  { fid := ""
    bakedDepth := jsOr depth 1
    scaleZ := 1
    heightMeters := heightMeters
    color := colorHex }

/-- Models `manager.addMeshForFeature` from Map3D.tsx.  `fresh` is the id produced
by `cryptoRandomId()` when the feature has none.  Steps, as in the source:
if the id already has a mesh, remove that mesh from the scene and the index
(the replaced object stays on the heap — in-flight closures still alias it);
build the mesh; set `userData`; add to scene and index; set `scale.z` to
`0.001`; schedule the rise animation (`dur` 700, from `0.001` to `1`).
Nothing cancels or supersedes previously scheduled closures. -/
def addMeshForFeature (mtm : ℚ × ℚ → ℚ) (w : World) (feature : Feature)
    (fresh : String) (now : ℚ) : World :=
  let id := feature.id.getD fresh
  let w1 :=
    match idxGet w.idx id with
    | some t0 => { w with scene := w.scene.erase t0, idx := idxDelete w.idx id }
    | none => w
  let color := feature.color.getD "#c44e3b"
  let height := feature.height.getD 10
  let mesh0 := buildMeshFromPolygon mtm feature.ring height color
  let mesh := { mesh0 with fid := id, heightMeters := height, scaleZ := 1 / 1000 }
  let t := w1.nextToken
  { w1 with
    nextToken := t + 1
    heap := w1.heap ++ [(t, mesh)]
    scene := w1.scene ++ [t]
    idx := idxSet w1.idx id t
    anims := w1.anims ++
      [{ token := t, fid := id, kind := .rise, start := now, dur := 700,
         fromVal := 1 / 1000, toVal := 1, state := .Active }] }

/-- Models `manager.removeById` from Map3D.tsx: if the id has a mesh (and the scene
exists, which it always does here), remove it from the scene and delete the
index entry.  No animation closure is cancelled. -/
def removeById (w : World) (id : String) : World :=
  match idxGet w.idx id with
  | some t => { w with scene := w.scene.erase t, idx := idxDelete w.idx id }
  | none => w

/-- Models `manager.updateHeight` from Map3D.tsx: read the mesh, take the old
height from `userData.heightMeters` (always set at creation), store the new
one, and schedule a scale animation with `from = mesh.scale.z` (the current,
possibly mid-animation value) and `to = newH / (old || newH || 1)`.  The
previous closure for the same mesh, if still running, is left running. -/
def updateHeight (w : World) (id : String) (heightMeters : ℚ) (now : ℚ) : World :=
  match idxGet w.idx id with
  | none => w
  | some t =>
    match heapGet w.heap t with
    | none => w
    | some mesh =>
      let old := mesh.heightMeters
      let newH := heightMeters
      let fromV := mesh.scaleZ
      let toV := newH / jsOr (jsOr old newH) 1
      { w with
        heap := heapModify w.heap t (fun m => { m with heightMeters := newH })
        anims := w.anims ++
          [{ token := t, fid := id, kind := .height, start := now, dur := 500,
             fromVal := fromV, toVal := toV, state := .Active }] }

/-- One step of one animation closure at timestamp `now`, exactly as both
closure bodies in the source:
`t = min(1, (now - start) / dur)`, `eased = 1 - (1 - t)^3`,
`mesh.scale.z = from + (to - from) * eased`; if `t < 1` the closure
re-schedules itself, otherwise it snaps `mesh.scale.z = to` and ends
(state `Completed`).  A closure that already ended does nothing. -/
def advanceTask (heap : List (ℕ × MeshData)) (task : AnimTask) (now : ℚ) :
    List (ℕ × MeshData) × AnimTask :=
  if task.state = .Active then
    let t := min 1 ((now - task.start) / task.dur)
    let eased := easeOutCubic t
    let v := task.fromVal + (task.toVal - task.fromVal) * eased
    if t < 1 then
      (heapModify heap task.token (fun m => { m with scaleZ := v }), task)
    else
      (heapModify heap task.token (fun m => { m with scaleZ := task.toVal }),
       { task with state := .Completed })
  else (heap, task)

/-- One animation frame at timestamp `now`: every pending
`requestAnimationFrame` callback runs once, in scheduling order, each
writing to the mesh object it captured. -/
def tick (w : World) (now : ℚ) : World :=
  let r := w.anims.foldl
    (fun (acc : List (ℕ × MeshData) × List AnimTask) task =>
      let s := advanceTask acc.1 task now
      (s.1, acc.2 ++ [s.2]))
    (w.heap, [])
  { w with heap := r.1, anims := r.2 }

/-! ## Combined system: GeoJSON building store + mesh manager

The building store is the `user-buildings` source `_data` feature list; the
`localStorage` snapshot written by `saveToStorage` always mirrors it, so a
single list suffices. -/

structure Sys where
  store : List Feature
  world : World
deriving DecidableEq

/-- Models `cur.features.findIndex(f => f.properties && f.properties.id === id)`
followed by in-place mutation of that element: replace the first feature
whose id matches, leave everything else untouched. -/
def updateFirstBy (l : List Feature) (id : String) (f : Feature → Feature) :
    List Feature :=
  match l with
  | [] => []
  | x :: xs =>
    if x.id = some id then f x :: xs else x :: updateFirstBy xs id f

/-- Models `findIndex` + `splice(idx, 1)`: remove the first feature whose id
matches. -/
def eraseFirstBy (l : List Feature) (id : String) : List Feature :=
  match l with
  | [] => []
  | x :: xs => if x.id = some id then xs else x :: eraseFirstBy xs id

/-- Models `appendBuildingFeature` from Map3D.tsx: ensure an id (`cryptoRandomId`
modelled by `fresh`), optionally zero the height for the rise animation,
append the feature to the source data (no duplicate-id check, no geometry
validation), persist, and add the three mesh.  The deferred
`setTimeout(..., 450)` height application is a separate event,
`deferredHeightApply` below. -/
def appendBuildingFeature (mtm : ℚ × ℚ → ℚ) (sys : Sys) (feat : Feature)
    (fresh : String) (animateHeight : Bool) (now : ℚ) : Sys :=
  let fid := feat.id.getD fresh
  let feat0 := { feat with id := some fid }
  let feat1 := if animateHeight then { feat0 with height := some 0 } else feat0
  { store := sys.store ++ [feat1]
    world := addMeshForFeature mtm sys.world feat1 fresh now }

/-- The body of the 450ms `setTimeout` in `appendBuildingFeature`:
`updateHeight(id, targetHeight)` on the manager, then write `targetHeight`
back into the properties of the stored feature and persist. -/
def deferredHeightApply (sys : Sys) (id : String) (targetHeight : ℚ) (now : ℚ) :
    Sys :=
  { store := updateFirstBy sys.store id (fun f => { f with height := some targetHeight })
    world := updateHeight sys.world id targetHeight now }

/-- Models `deleteSelected` from Map3D.tsx, buildings branch: if the selected id is
in the building store, remove the mesh (`removeById`) and splice the feature
out, then persist.  (The trees branch touches no meshes and is outside every
claim.) -/
def deleteSelected (sys : Sys) (selectedId : String) : Sys :=
  if sys.store.any (fun f => f.id = some selectedId) then
    { store := eraseFirstBy sys.store selectedId
      world := removeById sys.world selectedId }
  else sys

/-- The Clear Buildings handler from Map3D.tsx: replace the source data with
an empty collection, then `meshes.forEach((m, id) => removeById(id))`. -/
def clearBuildings (sys : Sys) : Sys :=
  { store := []
    world := (sys.world.idx.map Prod.fst).foldl removeById sys.world }

/-- Models `importGeoJSON` from Map3D.tsx for the `user-buildings` source: replace
the source data wholesale with the parsed collection, persist, then call
`addMeshForFeature` for each imported feature.  Meshes of previously stored
features are never removed.  `fresh` supplies the `cryptoRandomId` fallback
for the n-th imported feature. -/
def importGeoJSON (mtm : ℚ × ℚ → ℚ) (sys : Sys) (parsed : List Feature)
    (fresh : ℕ → String) (now : ℚ) : Sys :=
  let r := parsed.foldl
    (fun (acc : World × ℕ) f =>
      (addMeshForFeature mtm acc.1 f (fresh acc.2) now, acc.2 + 1))
    (sys.world, 0)
  { store := parsed, world := r.1 }

/-- Models `rotateSelectedBuilding` from Map3D.tsx: find the selected feature, take
the outer ring, compute centroid, `newRotation = (old + delta) % 360` (JS
remainder), estimate width/depth in meters from the bounding box of the ring at
the centroid latitude, rebuild the footprint as a rectangle ring with those
dimensions (falling back to the panel values `buildingWidth`/`buildingDepth` when
an estimate is 0), store the new geometry and rotation, persist, and rebuild
the mesh by `removeById` + `addMeshForFeature`. -/
def rotateSelectedBuilding (cosDeg sinDeg : ℚ → ℚ) (mtm : ℚ × ℚ → ℚ)
    (sys : Sys) (selectedId : String) (deltaDeg : ℚ)
    (buildingWidth buildingDepth : ℚ) (now : ℚ) : Sys :=
  match sys.store.find? (fun f => f.id = some selectedId) with
  | none => sys
  | some feat =>
    let poly := feat.ring
    let centroid := polygonCentroid poly
    let oldRotation := feat.rotation.getD 0
    let newRotation := jsRem (oldRotation + deltaDeg) 360
    let bbox := polygonBBox poly
    let widthMeters := |(bbox.maxLng - bbox.minLng) * (111320 * cosDeg centroid.2)|
    let depthMeters := |(bbox.maxLat - bbox.minLat) * 111320|
    let newPoly := rectanglePolygonAround cosDeg sinDeg centroid.1 centroid.2
      (jsOr widthMeters buildingWidth) (jsOr depthMeters buildingDepth) newRotation
    let feat1 := { feat with ring := newPoly, rotation := some newRotation }
    { store := updateFirstBy sys.store selectedId (fun _ => feat1)
      world := addMeshForFeature mtm (removeById sys.world selectedId) feat1
        selectedId now }

/-- The property updates accepted by `updateSelectedBuildingProps` (the
spread `{...props, ...updates}` keeps a stored property unless the update
carries that key). -/
structure PropUpdates where
  height : Option ℚ
  color : Option String
  content : Option String
deriving DecidableEq

/-- Merge `{...props, ...updates}` for the modelled keys. -/
def mergeProps (f : Feature) (u : PropUpdates) : Feature :=
  { f with
    height := match u.height with | some h => some h | none => f.height
    color := match u.color with | some c => some c | none => f.color
    content := match u.content with | some c => some c | none => f.content }

/-- Models `updateSelectedBuildingProps` from Map3D.tsx: if the update carries a
height, remember the previous height, merge the properties, persist, and
call `updateHeight(selectedId, target)`; otherwise merge and persist, and if
a color is present write it straight into the mesh material. -/
def updateSelectedBuildingProps (sys : Sys) (selectedId : String)
    (updates : PropUpdates) (now : ℚ) : Sys :=
  if sys.store.any (fun f => f.id = some selectedId) then
    match updates.height with
    | some targetH =>
      { store := updateFirstBy sys.store selectedId (fun f => mergeProps f updates)
        world := updateHeight sys.world selectedId targetH now }
    | none =>
      let world' :=
        match updates.color, idxGet sys.world.idx selectedId with
        | some c, some t =>
          { sys.world with heap := heapModify sys.world.heap t (fun m => { m with color := c }) }
        | _, _ => sys.world
      { store := updateFirstBy sys.store selectedId (fun f => mergeProps f updates)
        world := world' }
  else sys

/-! ## Camera sync bridge -/

/-- The state of `customLayer.render` that the camera-sync claims concern:
whether `onAdd` has run (renderer/scene/camera/clock all present), the
projection matrix of the overlay camera, and whether `map.triggerRepaint()` was
called during the last render callback. -/
structure RenderState where
  initialized : Bool
  projection : Option (List ℚ)
  repaintRequested : Bool
deriving DecidableEq

/-- Models `customLayer.render` from Map3D.tsx: if the manager is not initialized,
return without doing anything; otherwise assign the camera projection
directly from the matrix supplied for this frame
(`new THREE.Matrix4().fromArray(matrix)`), render the overlay scene, and ask
the host to schedule the next repaint (`map.triggerRepaint()`).  The
per-mesh emissive blinking writes only `material.emissiveIntensity`, which
no claim reads. -/
def renderFrame (st : RenderState) (matrix : List ℚ) : RenderState :=
  if st.initialized then
    { st with projection := some matrix, repaintRequested := true }
  else st

/-! ## Reachable system states

One constructor per externally triggerable event of the Map3D component.
The initial store is whatever `localStorage` held (arbitrary), while the
manager always starts empty; `onAdd`-time mesh population is the `addMesh`
constructor, animation frames are `frame`. -/
inductive Reachable : Sys → Prop where
  | load (store : List Feature) : Reachable ⟨store, initWorld⟩
  | append {s} (h : Reachable s) (mtm : ℚ × ℚ → ℚ) (feat : Feature)
      (fresh : String) (animateHeight : Bool) (now : ℚ) :
      Reachable (appendBuildingFeature mtm s feat fresh animateHeight now)
  | deferred {s} (h : Reachable s) (id : String) (targetH now : ℚ) :
      Reachable (deferredHeightApply s id targetH now)
  | del {s} (h : Reachable s) (id : String) : Reachable (deleteSelected s id)
  | clear {s} (h : Reachable s) : Reachable (clearBuildings s)
  | imp {s} (h : Reachable s) (mtm : ℚ × ℚ → ℚ) (parsed : List Feature)
      (fresh : ℕ → String) (now : ℚ) :
      Reachable (importGeoJSON mtm s parsed fresh now)
  | rot {s} (h : Reachable s) (cosDeg sinDeg : ℚ → ℚ) (mtm : ℚ × ℚ → ℚ)
      (id : String) (delta bw bd now : ℚ) :
      Reachable (rotateSelectedBuilding cosDeg sinDeg mtm s id delta bw bd now)
  | upd {s} (h : Reachable s) (id : String) (u : PropUpdates) (now : ℚ) :
      Reachable (updateSelectedBuildingProps s id u now)
  | addMesh {s} (h : Reachable s) (mtm : ℚ × ℚ → ℚ) (feat : Feature)
      (fresh : String) (now : ℚ) :
      Reachable ⟨s.store, addMeshForFeature mtm s.world feat fresh now⟩
  | frame {s} (h : Reachable s) (now : ℚ) : Reachable ⟨s.store, tick s.world now⟩

/-! ## Ring closure helpers -/

/-- A list closed by pushing its own first element starts and ends with the
same element. -/
lemma closed_append_take_one {α : Type} (l : List α) (h : l ≠ []) :
    (l ++ l.take 1).head? = (l ++ l.take 1).getLast? := by
  cases l with
  | nil => exact absurd rfl h
  | cons x xs =>
    simp only [List.take_succ_cons, List.take_zero]
    rw [List.getLast?_concat]
    rfl

/-- Rectangle rings have exactly 5 coordinates (4 corners + closing point). -/
lemma rectanglePolygonAround_length (cosDeg sinDeg : ℚ → ℚ)
    (lng lat w d rot : ℚ) :
    (rectanglePolygonAround cosDeg sinDeg lng lat w d rot).length = 5 := by
  simp [rectanglePolygonAround]

/-- Rectangle rings are closed. -/
lemma rectanglePolygonAround_closed (cosDeg sinDeg : ℚ → ℚ)
    (lng lat w d rot : ℚ) :
    (rectanglePolygonAround cosDeg sinDeg lng lat w d rot).head? =
    (rectanglePolygonAround cosDeg sinDeg lng lat w d rot).getLast? := by
  unfold rectanglePolygonAround
  exact closed_append_take_one _ (by simp)

/-- Circle rings with at least one sample are closed. -/
lemma circlePolygonAround_closed (cosDeg cosTurn sinTurn : ℚ → ℚ)
    (lng lat r : ℚ) (segments : ℕ) (h : 1 ≤ segments) :
    (circlePolygonAround cosDeg cosTurn sinTurn lng lat r segments).head? =
    (circlePolygonAround cosDeg cosTurn sinTurn lng lat r segments).getLast? := by
  unfold circlePolygonAround
  refine closed_append_take_one _ (fun hc => ?_)
  have h2 := congrArg List.length hc
  simp only [List.length_map, List.length_range, List.length_nil] at h2
  omega

/-! ## Concrete scenario states shared by several claims -/

/-- Constant meters→mercator-unit sample used by the concrete scenarios. -/
def mtmOne : ℚ × ℚ → ℚ := fun _ => 1

/-- A building feature with id "a", height 10 and a unit-square footprint. -/
def featA : Feature :=
  ⟨some "a", some 10, some 0, some "#c44e3b", some 0, some "",
   [(0, 0), (1, 0), (1, 1), (0, 1), (0, 0)]⟩

/-- Fresh page with empty storage: empty store, empty manager. -/
def sysInit : Sys := ⟨[], initWorld⟩

/-- After `appendBuildingFeature(featA)` (mesh 0 created at time 0 with the
rise animation scheduled). -/
def sysA1 : Sys := appendBuildingFeature mtmOne sysInit featA "x" false 0

/-- After an animation frame at 700ms: the rise animation completes and the
mesh of featA has `scale.z = 1`. -/
def sysA2 : Sys := ⟨sysA1.store, tick sysA1.world 700⟩

/-- After `updateProperties("a", { height: 30 })` at 1000ms: a height
animation task from the current scale 1 to scale 3 is scheduled. -/
def sysB1 : Sys := updateSelectedBuildingProps sysA2 "a" ⟨some 30, none, none⟩ 1000

/-- After an animation frame at 1500ms: the first height task completes. -/
def sysB2 : Sys := ⟨sysB1.store, tick sysB1.world 1500⟩

/-- After a second `updateProperties("a", { height: 50 })` at 2000ms. -/
def sysB3 : Sys := updateSelectedBuildingProps sysB2 "a" ⟨some 50, none, none⟩ 2000

/-- After an animation frame at 2500ms: the second height task completes. -/
def sysB4 : Sys := ⟨sysB3.store, tick sysB3.world 2500⟩

/-- Deleting feature "a" at 1100ms, while its height task is `Active`. -/
def sysD1 : Sys := deleteSelected sysB1 "a"

/-- An animation frame at 1500ms, after the deletion. -/
def sysD2 : Sys := ⟨sysD1.store, tick sysD1.world 1500⟩

/-! ## C1 -/

/-- C1: the claim states that removing a feature with an in-flight animation
cancels the task synchronously, that no later tick updates the disposed
mesh, and that the task ends `Cancelled`, never `Completed`.  The code has
no cancellation at all: after `deleteSelected` removes mesh 0 from the scene
and the index, its height task is still `Active`; the next animation frame
still writes `scale.z` of the disposed mesh (1 ↦ 3), and the task ends
`Completed`.  No task ever reaches `Cancelled`. -/
theorem c1_delete_does_not_cancel_animation :
    -- at deletion time the mesh is gone from scene and index …
    idxGet sysD1.world.idx "a" = none ∧
    sysD1.world.scene = [] ∧
    -- … its height task is still Active and its scale is still 1 …
    sysD1.world.anims.map (fun t => (t.kind, t.state))
      = [(AnimKind.rise, TaskState.Completed),
         (AnimKind.height, TaskState.Active)] ∧
    (heapGet sysD1.world.heap 0).map MeshData.scaleZ = some 1 ∧
    -- … and the frame at 1500ms still updates the disposed mesh and
    -- completes the task instead of cancelling it.
    (heapGet sysD2.world.heap 0).map MeshData.scaleZ = some 3 ∧
    sysD2.world.anims.map AnimTask.state
      = [TaskState.Completed, TaskState.Completed] ∧
    (∀ t ∈ sysD2.world.anims, t.state ≠ TaskState.Cancelled) := by
  norm_num [sysD2, sysD1, sysB1, sysA2, sysA1, sysInit, featA, mtmOne,
    appendBuildingFeature, addMeshForFeature, buildMeshFromPolygon,
    polygonCentroidCoords, jsOr, idxGet, idxSet, idxDelete, heapGet,
    heapModify, updateSelectedBuildingProps, updateHeight, tick, advanceTask,
    easeOutCubic, initWorld, updateFirstBy, mergeProps, deleteSelected,
    eraseFirstBy, removeById, List.find?, List.filter]
  exact fun h => TaskState.noConfusion h

/-! ## C3 -/

/-- C3: the claim states that after a height animation finishes, the
effective mesh height (baked extrusion depth × z-scale) equals the new
height exactly, for every old/new pair including a second update after a
first one completed.  The first update (10 → 30) does land exactly on 30,
but the code sets the scale target to `newHeight / oldHeight` against
geometry baked at the creation height (its own comment claims unit-height
baking, which `buildMeshFromPolygon` does not do), so a second update
(30 → 50) lands on `10 * 50/30 = 50/3 ≠ 50`. -/
theorem c3_second_height_update_misses_target :
    -- first update: effective height is exactly 30
    (heapGet sysB2.world.heap 0).map (fun m => m.bakedDepth * m.scaleZ)
      = some 30 ∧
    -- second update after the first completed: effective height is 50/3
    (heapGet sysB4.world.heap 0).map (fun m => m.bakedDepth * m.scaleZ)
      = some (50 / 3) ∧
    (50 : ℚ) / 3 ≠ 50 := by
  norm_num [sysB4, sysB3, sysB2, sysB1, sysA2, sysA1, sysInit, featA, mtmOne,
    appendBuildingFeature, addMeshForFeature, buildMeshFromPolygon,
    polygonCentroidCoords, jsOr, idxGet, idxSet, idxDelete, heapGet,
    heapModify, updateSelectedBuildingProps, updateHeight, tick, advanceTask,
    easeOutCubic, initWorld, updateFirstBy, mergeProps, removeById,
    List.find?]

/-! ## C5 -/

/-- C5: the claim states that a circle footprint request with fewer than 3
segments fails with `InvalidGeometry`.  The source has no validation and no
failure path: `circlePolygonAround` with `segments = 2` returns a degenerate
closed 3-point ring (whatever the trig functions evaluate to) instead of
failing. -/
theorem c5_circle_accepts_degenerate_segment_count :
    ∀ cosDeg cosTurn sinTurn : ℚ → ℚ,
      (circlePolygonAround cosDeg cosTurn sinTurn 0 0 8 2).length = 3 ∧
      (circlePolygonAround cosDeg cosTurn sinTurn 0 0 8 2).head? =
        (circlePolygonAround cosDeg cosTurn sinTurn 0 0 8 2).getLast? := by
  intro cosDeg cosTurn sinTurn
  refine ⟨?_, circlePolygonAround_closed cosDeg cosTurn sinTurn 0 0 8 2 (by norm_num)⟩
  simp [circlePolygonAround]

/-! ## C6 -/

/-- A feature whose outer ring is not closed (first ≠ last coordinate). -/
def featU : Feature :=
  ⟨some "u", some 7, some 0, some "#123456", some 0, some "",
   [(0, 0), (1, 0), (1, 1)]⟩

/-- Appending featA a second time, to a store that already holds id "a". -/
def sysDup : Sys := appendBuildingFeature mtmOne sysA1 featA "y" false 10

/-- Appending the unclosed-ring feature to an empty system. -/
def sysOpenRing : Sys := appendBuildingFeature mtmOne sysInit featU "w" false 0

/-- C6: the claim states that `add` rejects a duplicate id with
`DuplicateId` and an unclosed ring with `InvalidGeometry`, leaving the store
unchanged.  `appendBuildingFeature` performs neither check: re-adding id "a"
appends a second store entry with the same id (the store is mutated and now
violates id uniqueness), and a feature whose ring is not closed is appended
as-is. -/
theorem c6_append_accepts_duplicates_and_open_rings :
    sysDup.store.map Feature.id = [some "a", some "a"] ∧
    featU.ring.head? ≠ featU.ring.getLast? ∧
    sysOpenRing.store = [featU] := by
  refine ⟨?_, ?_, ?_⟩
  · norm_num [sysDup, sysA1, sysInit, featA, mtmOne, appendBuildingFeature,
      addMeshForFeature, buildMeshFromPolygon, polygonCentroidCoords, jsOr,
      idxGet, idxSet, idxDelete, initWorld, List.find?]
  · simp [featU]
  · norm_num [sysOpenRing, sysInit, featU, mtmOne, appendBuildingFeature,
      addMeshForFeature, buildMeshFromPolygon, polygonCentroidCoords, jsOr,
      idxGet, idxSet, idxDelete, initWorld, List.find?]

/-! ## C7 counterexample -/

/-- A second height update at 1250ms, while the first height task is still
`Active` (it would complete at 1500ms). -/
def sysE1 : Sys := updateSelectedBuildingProps sysB1 "a" ⟨some 50, none, none⟩ 1250

/-- C7 counterexample: the claim states that starting a new task for a
`(featureId, kind)` pair that already has an active task overwrites it, so
at most one task per pair is ever active.  The source never cancels or
replaces a running closure: after the second `updateHeight` for feature "a",
two height tasks for "a" are simultaneously `Active`. -/
theorem c7_counterexample_two_active_height_tasks :
    sysE1.world.anims.map (fun t => (t.fid, t.kind, t.state))
      = [("a", AnimKind.rise, TaskState.Completed),
         ("a", AnimKind.height, TaskState.Active),
         ("a", AnimKind.height, TaskState.Active)] := by
  norm_num [sysE1, sysB1, sysA2, sysA1, sysInit, featA, mtmOne,
    appendBuildingFeature, addMeshForFeature, buildMeshFromPolygon,
    polygonCentroidCoords, jsOr, idxGet, idxSet, idxDelete, heapGet,
    heapModify, updateSelectedBuildingProps, updateHeight, tick, advanceTask,
    easeOutCubic, initWorld, updateFirstBy, mergeProps, List.find?]

/-! ## C2 counterexample -/

/-- A second feature with id "b" and a closed triangular ring. -/
def featB : Feature :=
  ⟨some "b", some 5, none, none, none, none, [(0, 0), (1, 0), (0, 1), (0, 0)]⟩

/-- Importing a collection that contains only featB into the system that
holds featA (store and mesh). -/
def sysImp : Sys := importGeoJSON mtmOne sysA1 [featB] (fun _ => "f") 100

/-- C2 counterexample: the claim states that no mesh remains in the scene or
the id→mesh index for a feature removed from the store, including removal by
the replace-all of import.  `importGeoJSON` replaces the store wholesale but
only adds meshes for imported features: after importing `[featB]`, feature
"a" is gone from the store while its mesh (token 0) is still in the index
and in the scene. -/
theorem c2_counterexample_import_leaves_dangling_mesh :
    sysImp.store.map Feature.id = [some "b"] ∧
    idxGet sysImp.world.idx "a" = some 0 ∧
    (0 : ℕ) ∈ sysImp.world.scene ∧
    (heapGet sysImp.world.heap 0).map MeshData.fid = some "a" := by
  simp [sysImp, sysA1, sysInit, featA, featB, mtmOne, importGeoJSON,
    appendBuildingFeature, addMeshForFeature, buildMeshFromPolygon,
    polygonCentroidCoords, jsOr, idxGet, idxSet, idxDelete, heapGet,
    initWorld, List.find?]

/-! ## C4 counterexample -/

/-- Rotating the selected building "a" by −15 degrees, from stored
rotation 0. -/
def sysRotNeg : Sys :=
  rotateSelectedBuilding (fun _ => 1) (fun _ => 0) mtmOne sysA1 "a" (-15) 12 12 0

/-- C4 counterexample: the claim states the stored rotation always lies in
`[0, 360)`, also for negative deltas.  The source computes
`(oldRotation + deltaDeg) % 360` with the JavaScript remainder, which keeps
the sign of the dividend: rotating by −15 from rotation 0 stores −15, which
is not in `[0, 360)`. -/
theorem c4_counterexample_negative_delta_out_of_range :
    (sysRotNeg.store.find? (fun f => f.id = some "a")).map Feature.rotation
      = some (some (-15)) ∧ ¬ (0 ≤ (-15 : ℚ)) := by
  refine ⟨?_, by norm_num⟩
  norm_num [sysRotNeg, sysA1, sysInit, featA, mtmOne, rotateSelectedBuilding,
    appendBuildingFeature, addMeshForFeature, buildMeshFromPolygon,
    polygonCentroid, polygonCentroidCoords, polygonBBox, jsOr, jsRem,
    ratTrunc, idxGet, idxSet, idxDelete, initWorld, updateFirstBy,
    removeById, rectanglePolygonAround, metersToLngDegrees,
    metersToLatDegrees, List.find?]

/-! ## C8 -/

/-- C8: on every render callback the overlay camera projection is assigned
directly from the matrix supplied for that frame — whatever projection was
cached before is irrelevant — and after rendering, the bridge asks the host
to schedule the next repaint (`map.triggerRepaint()`); the render path runs
no timer of its own (the model has no other scheduling effect). -/
theorem c8_render_uses_current_matrix_and_requests_repaint :
    ∀ (st : RenderState) (matrix : List ℚ), st.initialized = true →
      (renderFrame st matrix).projection = some matrix ∧
      (renderFrame st matrix).repaintRequested = true := by
  intro st matrix h
  simp [renderFrame, h]

/-- Witness for C8 at a concrete initialized state carrying a stale cached
projection. -/
theorem c8_render_witness :
    (RenderState.mk true (some [9, 9]) false).initialized = true ∧
    (renderFrame (RenderState.mk true (some [9, 9]) false) [5, 7]).projection
      = some [5, 7] ∧
    (renderFrame (RenderState.mk true (some [9, 9]) false) [5, 7]).repaintRequested
      = true :=
  ⟨rfl,
   (c8_render_uses_current_matrix_and_requests_repaint _ [5, 7] rfl).1,
   (c8_render_uses_current_matrix_and_requests_repaint _ [5, 7] rfl).2⟩

/-! ## Rotation machinery shared by C4 and C10 -/

/-- Replacing the first matching feature keeps it the first match when the
replacement still carries the selected id. -/
lemma find?_updateFirstBy (l : List Feature) (id : String) (g : Feature → Feature)
    (feat : Feature) (hf : l.find? (fun f => f.id = some id) = some feat)
    (hg : (g feat).id = some id) :
    (updateFirstBy l id g).find? (fun f => f.id = some id) = some (g feat) := by
  induction l with
  | nil => simp [List.find?] at hf
  | cons x xs ih =>
    by_cases hx : x.id = some id
    · rw [List.find?_cons_of_pos _ (by simpa using hx)] at hf
      injection hf with hf
      subst hf
      rw [updateFirstBy, if_pos hx]
      exact List.find?_cons_of_pos _ (by simpa using hg)
    · rw [List.find?_cons_of_neg _ (by simpa using hx)] at hf
      rw [updateFirstBy, if_neg hx]
      rw [List.find?_cons_of_neg _ (by simpa using hx)]
      exact ih hf

/-- The feature stored under the selected id after `rotateSelectedBuilding`:
the footprint is replaced by the rectangle ring rebuilt from the
bounding-box estimates at the centroid, and the rotation becomes the JS
remainder of old + delta. -/
lemma rotateSelectedBuilding_find (cosDeg sinDeg : ℚ → ℚ) (mtm : ℚ × ℚ → ℚ)
    (sys : Sys) (selId : String) (delta bw bd now : ℚ) (feat : Feature)
    (hf : sys.store.find? (fun f => f.id = some selId) = some feat) :
    (rotateSelectedBuilding cosDeg sinDeg mtm sys selId delta bw bd now).store.find?
      (fun f => f.id = some selId) = some
      { feat with
        ring := rectanglePolygonAround cosDeg sinDeg
          (polygonCentroid feat.ring).1 (polygonCentroid feat.ring).2
          (jsOr |((polygonBBox feat.ring).maxLng - (polygonBBox feat.ring).minLng) *
              (111320 * cosDeg (polygonCentroid feat.ring).2)| bw)
          (jsOr |((polygonBBox feat.ring).maxLat - (polygonBBox feat.ring).minLat) *
              111320| bd)
          (jsRem (feat.rotation.getD 0 + delta) 360)
        rotation := some (jsRem (feat.rotation.getD 0 + delta) 360) } := by
  have hid : feat.id = some selId := by
    have h1 := List.find?_some hf
    simpa using h1
  unfold rotateSelectedBuilding
  rw [hf]
  exact find?_updateFirstBy _ _ _ _ hf (by simp [hid])

/-- For a nonnegative dividend the JS remainder by 360 lies in [0, 360). -/
lemma jsRem_nonneg_lt_of_nonneg (x : ℚ) (hx : 0 ≤ x) :
    0 ≤ jsRem x 360 ∧ jsRem x 360 < 360 := by
  have hq : (0 : ℚ) ≤ x / 360 := by positivity
  have key : jsRem x 360 = 360 * Int.fract (x / 360) := by
    rw [jsRem, ratTrunc, if_pos hq, Int.fract]
    ring
  refine ⟨?_, ?_⟩
  · rw [key]
    have := Int.fract_nonneg (x / 360)
    linarith
  · rw [key]
    have := Int.fract_lt_one (x / 360)
    linarith

/-! ## C4 amended -/

/-- C4 amended: `rotate(id, delta)` stores
`(oldRotation + delta) % 360` with JavaScript remainder semantics (sign of
the dividend), so the stored rotation lies in `[0, 360)` whenever
`oldRotation + delta` is nonnegative — which covers the 15/15/345 scenario —
but a negative sum is stored negative (see the counterexample). -/
theorem c4_amended_rotation_is_js_remainder :
    ∀ (cosDeg sinDeg : ℚ → ℚ) (mtm : ℚ × ℚ → ℚ) (sys : Sys) (selId : String)
      (delta bw bd now : ℚ) (feat : Feature),
      sys.store.find? (fun f => f.id = some selId) = some feat →
      ∃ featN,
        (rotateSelectedBuilding cosDeg sinDeg mtm sys selId delta bw bd
          now).store.find? (fun f => f.id = some selId) = some featN ∧
        featN.rotation = some (jsRem (feat.rotation.getD 0 + delta) 360) ∧
        (0 ≤ feat.rotation.getD 0 + delta →
          0 ≤ jsRem (feat.rotation.getD 0 + delta) 360 ∧
          jsRem (feat.rotation.getD 0 + delta) 360 < 360) := by
  intro cosDeg sinDeg mtm sys selId delta bw bd now feat hf
  refine ⟨_, rotateSelectedBuilding_find cosDeg sinDeg mtm sys selId delta bw bd
    now feat hf, rfl, fun hpos => jsRem_nonneg_lt_of_nonneg _ hpos⟩

/-- Witness for the amended C4 at the concrete scenario rotate("a", 15) on a
store holding featA (rotation 0). -/
theorem c4_amended_witness :
    ((⟨[featA], initWorld⟩ : Sys).store.find? (fun f => f.id = some "a")
      = some featA) ∧
    ∃ featN,
      (rotateSelectedBuilding (fun _ => 1) (fun _ => 0) mtmOne
        ⟨[featA], initWorld⟩ "a" 15 12 12 0).store.find?
        (fun f => f.id = some "a") = some featN ∧
      featN.rotation = some (jsRem (featA.rotation.getD 0 + 15) 360) ∧
      (0 ≤ featA.rotation.getD 0 + 15 →
        0 ≤ jsRem (featA.rotation.getD 0 + 15) 360 ∧
        jsRem (featA.rotation.getD 0 + 15) 360 < 360) :=
  ⟨by simp [featA, List.find?],
   c4_amended_rotation_is_js_remainder (fun _ => 1) (fun _ => 0) mtmOne
     ⟨[featA], initWorld⟩ "a" 15 12 12 0 featA (by simp [featA, List.find?])⟩

/-! ## C10 -/

/-- C10: for every selected building, `rotateSelectedBuilding` replaces the
footprint with a 5-point closed rectangle ring rebuilt from the axis-aligned
bounding box of the old polygon, with width and depth estimated in meters at
the centroid latitude — regardless of the original footprint shape (the
hypotheses only require the bounding box to have nonzero extent, so that the
panel-default fallback dimensions are not used). -/
theorem c10_rotate_replaces_footprint_with_bbox_rectangle :
    ∀ (cosDeg sinDeg : ℚ → ℚ) (mtm : ℚ × ℚ → ℚ) (sys : Sys) (selId : String)
      (delta bw bd now : ℚ) (feat : Feature),
      sys.store.find? (fun f => f.id = some selId) = some feat →
      |((polygonBBox feat.ring).maxLng - (polygonBBox feat.ring).minLng) *
        (111320 * cosDeg (polygonCentroid feat.ring).2)| ≠ 0 →
      |((polygonBBox feat.ring).maxLat - (polygonBBox feat.ring).minLat) *
        111320| ≠ 0 →
      ∃ featN,
        (rotateSelectedBuilding cosDeg sinDeg mtm sys selId delta bw bd
          now).store.find? (fun f => f.id = some selId) = some featN ∧
        featN.ring = rectanglePolygonAround cosDeg sinDeg
          (polygonCentroid feat.ring).1 (polygonCentroid feat.ring).2
          |((polygonBBox feat.ring).maxLng - (polygonBBox feat.ring).minLng) *
            (111320 * cosDeg (polygonCentroid feat.ring).2)|
          |((polygonBBox feat.ring).maxLat - (polygonBBox feat.ring).minLat) *
            111320|
          (jsRem (feat.rotation.getD 0 + delta) 360) ∧
        featN.ring.length = 5 ∧
        featN.ring.head? = featN.ring.getLast? := by
  intro cosDeg sinDeg mtm sys selId delta bw bd now feat hf hw hd
  refine ⟨_, rotateSelectedBuilding_find cosDeg sinDeg mtm sys selId delta bw bd
    now feat hf, ?_, ?_, ?_⟩
  · simp only [jsOr, if_neg hw, if_neg hd]
  · exact rectanglePolygonAround_length _ _ _ _ _ _ _
  · exact rectanglePolygonAround_closed _ _ _ _ _ _ _

/-- Witness for C10: rotating the unit-square building featA by 15 degrees
turns its footprint into the bbox-rectangle ring. -/
theorem c10_witness :
    ((⟨[featA], initWorld⟩ : Sys).store.find? (fun f => f.id = some "a")
      = some featA) ∧
    |((polygonBBox featA.ring).maxLng - (polygonBBox featA.ring).minLng) *
      (111320 * (fun (_ : ℚ) => (1 : ℚ)) (polygonCentroid featA.ring).2)| ≠ 0 ∧
    |((polygonBBox featA.ring).maxLat - (polygonBBox featA.ring).minLat) *
      111320| ≠ 0 ∧
    ∃ featN,
      (rotateSelectedBuilding (fun _ => 1) (fun _ => 0) mtmOne
        ⟨[featA], initWorld⟩ "a" 15 12 12 0).store.find?
        (fun f => f.id = some "a") = some featN ∧
      featN.ring = rectanglePolygonAround (fun _ => 1) (fun _ => 0)
        (polygonCentroid featA.ring).1 (polygonCentroid featA.ring).2
        |((polygonBBox featA.ring).maxLng - (polygonBBox featA.ring).minLng) *
          (111320 * (fun (_ : ℚ) => (1 : ℚ)) (polygonCentroid featA.ring).2)|
        |((polygonBBox featA.ring).maxLat - (polygonBBox featA.ring).minLat) *
          111320|
        (jsRem (featA.rotation.getD 0 + 15) 360) ∧
      featN.ring.length = 5 ∧
      featN.ring.head? = featN.ring.getLast? :=
  ⟨by simp [featA, List.find?],
   by norm_num [featA, polygonBBox, polygonCentroid, polygonCentroidCoords],
   by norm_num [featA, polygonBBox],
   c10_rotate_replaces_footprint_with_bbox_rectangle (fun _ => 1) (fun _ => 0)
     mtmOne ⟨[featA], initWorld⟩ "a" 15 12 12 0 featA
     (by simp [featA, List.find?])
     (by norm_num [featA, polygonBBox, polygonCentroid, polygonCentroidCoords])
     (by norm_num [featA, polygonBBox])⟩

/-! ## C9 -/

/-- The building feature constructed by the click-to-place handler for a
rectangle: fresh id, panel color, configured height, base 0, rotation 0,
content set to the shape name, and the ring from `rectanglePolygonAround`
with the default rotation 0. -/
def placedRectFeature (cosDeg sinDeg : ℚ → ℚ) (lng lat w d h : ℚ)
    (fid color shape : String) : Feature :=
  ⟨some fid, some h, some 0, some color, some 0, some shape,
   rectanglePolygonAround cosDeg sinDeg lng lat w d 0⟩

/-- C9: every rectangle ring is closed; every circle ring with at least one
sample point is closed (all segment counts the callers use are ≥ 3); the
Scenario A rectangle at (−0.1276, 51.5072) with width 12, depth 12 is a
5-point ring; and after the place-then-apply-height flow the stored height
of the placed feature equals the configured 12. -/
theorem c9_footprint_closure_and_rectangle_scenario :
    (∀ (cosDeg sinDeg : ℚ → ℚ) (lng lat w d rot : ℚ),
      (rectanglePolygonAround cosDeg sinDeg lng lat w d rot).head? =
      (rectanglePolygonAround cosDeg sinDeg lng lat w d rot).getLast?) ∧
    (∀ (cosDeg cosTurn sinTurn : ℚ → ℚ) (lng lat r : ℚ) (segments : ℕ),
      1 ≤ segments →
      (circlePolygonAround cosDeg cosTurn sinTurn lng lat r segments).head? =
      (circlePolygonAround cosDeg cosTurn sinTurn lng lat r segments).getLast?) ∧
    (∀ cosDeg sinDeg : ℚ → ℚ,
      (placedRectFeature cosDeg sinDeg (-1276/10000) (515072/10000) 12 12 12
        "p" "#c44e3b" "rectangle").ring.length = 5) ∧
    (∀ (cosDeg sinDeg : ℚ → ℚ) (mtm : ℚ × ℚ → ℚ),
      ((deferredHeightApply
          (appendBuildingFeature mtm sysInit
            (placedRectFeature cosDeg sinDeg (-1276/10000) (515072/10000) 12 12
              12 "p" "#c44e3b" "rectangle") "z" true 0)
          "p" 12 450).store.find? (fun f => f.id = some "p")).map Feature.height
        = some (some 12)) := by
  refine ⟨rectanglePolygonAround_closed, circlePolygonAround_closed, ?_, ?_⟩
  · intro cosDeg sinDeg
    exact rectanglePolygonAround_length _ _ _ _ _ _ _
  · intro cosDeg sinDeg mtm
    simp [deferredHeightApply, appendBuildingFeature, sysInit,
      placedRectFeature, updateFirstBy, List.find?]

/-- Witness for C9 at the circle segment count 32 used by the click-to-place
handler. -/
theorem c9_witness :
    1 ≤ 32 ∧
    ((circlePolygonAround (fun _ => 1) (fun _ => 1) (fun _ => 0) 0 0 8 32).head? =
     (circlePolygonAround (fun _ => 1) (fun _ => 1) (fun _ => 0) 0 0 8 32).getLast?) :=
  ⟨by norm_num,
   c9_footprint_closure_and_rectangle_scenario.2.1 (fun _ => 1) (fun _ => 1)
     (fun _ => 0) 0 0 8 32 (by norm_num)⟩

/-! ## C7 amended -/

/-- C7 amended: each animation closure advances with
`t = min(1, (now − start)/duration)` and the cubic ease-out
`1 − (1 − t)^3` interpolating fromValue to toValue, snaps exactly to toValue
once `t` reaches 1 and then ends (`Completed`, never advanced again); and
`updateHeight` starts its new task with fromValue equal to the current
(possibly mid-animation) `scale.z` of the mesh — but it appends the task,
leaving every previously scheduled task in place, so a prior task for the
same (featureId, kind) pair is NOT overwritten and more than one task per
pair can be active (see the counterexample). -/
theorem c7_amended_easing_snap_and_retarget_from_current :
    (∀ (heap : List (ℕ × MeshData)) (task : AnimTask) (now : ℚ),
      task.state = TaskState.Active → (now - task.start) / task.dur < 1 →
      advanceTask heap task now =
        (heapModify heap task.token (fun m =>
          { m with scaleZ := task.fromVal + (task.toVal - task.fromVal) *
              easeOutCubic ((now - task.start) / task.dur) }), task)) ∧
    (∀ (heap : List (ℕ × MeshData)) (task : AnimTask) (now : ℚ),
      task.state = TaskState.Active → 1 ≤ (now - task.start) / task.dur →
      advanceTask heap task now =
        (heapModify heap task.token (fun m => { m with scaleZ := task.toVal }),
         { task with state := TaskState.Completed })) ∧
    (∀ (heap : List (ℕ × MeshData)) (task : AnimTask) (now : ℚ),
      task.state ≠ TaskState.Active → advanceTask heap task now = (heap, task)) ∧
    (∀ (w : World) (id : String) (h now : ℚ) (t : ℕ) (mesh : MeshData),
      idxGet w.idx id = some t → heapGet w.heap t = some mesh →
      (updateHeight w id h now).anims = w.anims ++
        [{ token := t, fid := id, kind := AnimKind.height, start := now,
           dur := 500, fromVal := mesh.scaleZ,
           toVal := h / jsOr (jsOr mesh.heightMeters h) 1,
           state := TaskState.Active }]) := by
  refine ⟨?_, ?_, ?_, ?_⟩
  · intro heap task now hact ht
    rw [advanceTask, if_pos hact]
    rw [min_eq_right (le_of_lt ht)]
    rw [if_pos ht]
  · intro heap task now hact ht
    rw [advanceTask, if_pos hact]
    rw [min_eq_left ht]
    rw [if_neg (lt_irrefl (1 : ℚ))]
  · intro heap task now hact
    rw [advanceTask, if_neg hact]
  · intro w id h now t mesh h1 h2
    simp only [updateHeight, h1, h2]

/-- Witness task for the amended C7. -/
def taskW : AnimTask := ⟨0, "a", AnimKind.height, 0, 500, 1, 3, TaskState.Active⟩

/-- Witness for the amended C7: the snap branch at t = 1 on a concrete
task. -/
theorem c7_amended_witness :
    taskW.state = TaskState.Active ∧
    1 ≤ ((500 : ℚ) - taskW.start) / taskW.dur ∧
    advanceTask [] taskW 500 =
      (heapModify [] taskW.token (fun m => { m with scaleZ := taskW.toVal }),
       { taskW with state := TaskState.Completed }) :=
  ⟨rfl, by norm_num [taskW],
   c7_amended_easing_snap_and_retarget_from_current.2.1 [] taskW 500 rfl
     (by norm_num [taskW])⟩


/-! ## C2 amended: mesh bookkeeping invariant

The invariant tying the scene, the id→mesh index and the heap together.
`fidOk` is stated through the fid projection of `heapGet`, which transfers
along heap mutations that change only animation-scaled fields. -/

/-- Mesh bookkeeping invariant of the manager: feature ids are unique in the
index; index tokens are unique and were allocated; every heap entry was
allocated; the scene holds exactly the indexed tokens (as a multiset); every
indexed token resolves to a heap mesh carrying that feature id. -/
structure InvW (w : World) : Prop where
  keysNodup : (w.idx.map Prod.fst).Nodup
  tokensNodup : (w.idx.map Prod.snd).Nodup
  tokenBound : ∀ t ∈ w.idx.map Prod.snd, t < w.nextToken
  heapBound : ∀ p ∈ w.heap, p.1 < w.nextToken
  perm : w.scene.Perm (w.idx.map Prod.snd)
  fidOk : ∀ p ∈ w.idx, (heapGet w.heap p.2).map MeshData.fid = some p.1

/-- find? commutes with appending when the left part already finds. -/
lemma listFind_append_some {α : Type} (p : α → Bool) (l1 l2 : List α) (x : α)
    (h : l1.find? p = some x) : (l1 ++ l2).find? p = some x := by
  induction l1 with
  | nil => simp [List.find?] at h
  | cons a as ih =>
    cases ha : p a with
    | true =>
      rw [List.find?_cons_of_pos _ ha] at h
      rw [List.cons_append, List.find?_cons_of_pos _ ha]
      exact h
    | false =>
      rw [List.find?_cons_of_neg _ (by simp [ha])] at h
      rw [List.cons_append, List.find?_cons_of_neg _ (by simp [ha])]
      exact ih h

/-- find? skips a left part in which it finds nothing. -/
lemma listFind_append_none {α : Type} (p : α → Bool) (l1 l2 : List α)
    (h : l1.find? p = none) : (l1 ++ l2).find? p = l2.find? p := by
  induction l1 with
  | nil => simp
  | cons a as ih =>
    cases ha : p a with
    | true => rw [List.find?_cons_of_pos _ ha] at h; cases h
    | false =>
      rw [List.find?_cons_of_neg _ (by simp [ha])] at h
      rw [List.cons_append, List.find?_cons_of_neg _ (by simp [ha])]
      exact ih h

/-- An absent id reads as none exactly when no pair carries it. -/
lemma idxGet_eq_none_iff (l : List (String × ℕ)) (k : String) :
    idxGet l k = none ↔ ∀ p ∈ l, p.1 ≠ k := by
  unfold idxGet
  rw [Option.map_eq_none']
  rw [List.find?_eq_none]
  constructor
  · intro h p hp
    have := h p hp
    simpa using this
  · intro h p hp
    simpa using h p hp

/-- A successful index read exhibits its pair. -/
lemma idxGet_some_mem (l : List (String × ℕ)) (k : String) (t : ℕ)
    (h : idxGet l k = some t) : (k, t) ∈ l := by
  unfold idxGet at h
  cases hf : l.find? (fun p => p.1 = k) with
  | none => rw [hf] at h; cases h
  | some q =>
    rw [hf] at h
    have hq1 : q.1 = k := by simpa using List.find?_some hf
    have hq2 : q.2 = t := by simpa using h
    have hmem := List.mem_of_find?_eq_some hf
    rw [← hq1, ← hq2]
    simpa using hmem

/-- Deleting an id that is not present changes nothing. -/
lemma idxDelete_eq_self (l : List (String × ℕ)) (k : String)
    (h : ∀ p ∈ l, p.1 ≠ k) : idxDelete l k = l := by
  unfold idxDelete
  rw [List.filter_eq_self]
  intro p hp
  simpa using h p hp

/-- After deletion the id is gone. -/
lemma idxGet_idxDelete_self (l : List (String × ℕ)) (k : String) :
    idxGet (idxDelete l k) k = none := by
  rw [idxGet_eq_none_iff]
  intro p hp
  have := List.of_mem_filter hp
  simpa using this

/-- Deletion is a sublist. -/
lemma idxDelete_sublist (l : List (String × ℕ)) (k : String) :
    (idxDelete l k).Sublist l := List.filter_sublist l

/-- Setting an absent id appends the pair. -/
lemma idxSet_of_none (l : List (String × ℕ)) (k : String) (v : ℕ)
    (h : idxGet l k = none) : idxSet l k v = l ++ [(k, v)] := by
  unfold idxSet
  have hf : l.find? (fun p => p.1 = k) = none := by
    unfold idxGet at h
    exact Option.map_eq_none'.mp h
  rw [hf]
  simp

/-- With unique keys, the token multiset splits off the deleted token. -/
lemma idxDelete_tokens_perm (l : List (String × ℕ)) (k : String) (t : ℕ)
    (hk : (l.map Prod.fst).Nodup) (hget : idxGet l k = some t) :
    (l.map Prod.snd).Perm (t :: ((idxDelete l k).map Prod.snd)) := by
  induction l with
  | nil => cases hget
  | cons q l1 ih =>
    by_cases hq : q.1 = k
    · have hqt : q.2 = t := by
        unfold idxGet at hget
        rw [List.find?_cons_of_pos _ (by simpa using hq)] at hget
        simpa using hget
      have hrest : idxDelete l1 k = l1 := by
        refine idxDelete_eq_self l1 k (fun p hp hpk => ?_)
        have : q.1 ∈ l1.map Prod.fst := by
          rw [hq, ← hpk]
          exact List.mem_map_of_mem Prod.fst hp
        exact (List.nodup_cons.mp (by simpa using hk)).1 this
      unfold idxDelete
      rw [List.filter_cons_of_neg (by simpa using hq)]
      show (q.2 :: l1.map Prod.snd).Perm (t :: (idxDelete l1 k).map Prod.snd)
      rw [hrest, hqt]
    · have hget1 : idxGet l1 k = some t := by
        unfold idxGet at hget ⊢
        rwa [List.find?_cons_of_neg _ (by simpa using hq)] at hget
      have ih1 := ih (by simpa using (List.nodup_cons.mp (by simpa using hk)).2) hget1
      unfold idxDelete
      rw [List.filter_cons_of_pos (by simpa using hq)]
      show (q.2 :: l1.map Prod.snd).Perm
        (t :: q.2 :: (idxDelete l1 k).map Prod.snd)
      exact (ih1.cons q.2).trans (List.Perm.swap t q.2 _)

/-- Reading an existing token is unaffected by appending a new entry. -/
lemma heapGet_append_of_some (h1 : List (ℕ × MeshData)) (p : ℕ × MeshData)
    (t : ℕ) (m : MeshData) (hm : heapGet h1 t = some m) :
    heapGet (h1 ++ [p]) t = some m := by
  unfold heapGet at hm ⊢
  cases hf : h1.find? (fun q => q.1 = t) with
  | none => rw [hf] at hm; cases hm
  | some q =>
    rw [hf] at hm
    rw [listFind_append_some _ _ _ _ hf]
    exact hm

/-- Reading a token absent from the heap finds the appended entry. -/
lemma heapGet_append_fresh (h1 : List (ℕ × MeshData)) (t : ℕ) (m : MeshData)
    (h : ∀ p ∈ h1, p.1 ≠ t) : heapGet (h1 ++ [(t, m)]) t = some m := by
  unfold heapGet
  have hf : h1.find? (fun q => q.1 = t) = none := by
    rw [List.find?_eq_none]
    intro p hp
    simpa using h p hp
  rw [listFind_append_none _ _ _ hf]
  simp [List.find?]

/-- The heap projection that the invariant depends on: tokens and mesh
feature ids. -/
def heapSig (h : List (ℕ × MeshData)) : List (ℕ × String) :=
  h.map (fun p => (p.1, p.2.fid))

/-- Mutating a mesh without touching its feature id keeps the signature. -/
lemma heapSig_heapModify (h : List (ℕ × MeshData)) (t : ℕ)
    (f : MeshData → MeshData) (hf : ∀ m, (f m).fid = m.fid) :
    heapSig (heapModify h t f) = heapSig h := by
  unfold heapSig heapModify
  rw [List.map_map]
  refine List.map_congr_left (fun p _ => ?_)
  by_cases hp : p.1 = t
  · simp [hp, hf]
  · simp [hp]

/-- Heaps with equal signature give the same token list. -/
lemma heapSig_keys (h1 h2 : List (ℕ × MeshData))
    (hs : heapSig h1 = heapSig h2) : h1.map Prod.fst = h2.map Prod.fst := by
  have e1 : h1.map Prod.fst = (heapSig h1).map Prod.fst := by
    unfold heapSig; rw [List.map_map]; rfl
  have e2 : h2.map Prod.fst = (heapSig h2).map Prod.fst := by
    unfold heapSig; rw [List.map_map]; rfl
  rw [e1, e2, hs]

/-- Heaps with equal signature agree on the fid of every lookup. -/
lemma heapGet_fid_of_sig (h1 h2 : List (ℕ × MeshData))
    (hs : heapSig h1 = heapSig h2) (t : ℕ) :
    (heapGet h1 t).map MeshData.fid = (heapGet h2 t).map MeshData.fid := by
  induction h1 generalizing h2 with
  | nil =>
    cases h2 with
    | nil => rfl
    | cons q l2 => cases hs
  | cons p l1 ih =>
    cases h2 with
    | nil => cases hs
    | cons q l2 =>
      unfold heapSig at hs
      simp only [List.map_cons, List.cons.injEq] at hs
      obtain ⟨hpq, hrest⟩ := hs
      have hkey : p.1 = q.1 := by
        have := congrArg Prod.fst hpq
        simpa using this
      have hfid : p.2.fid = q.2.fid := by
        have := congrArg Prod.snd hpq
        simpa using this
      unfold heapGet
      by_cases hp : p.1 = t
      · rw [List.find?_cons_of_pos _ (by simpa using hp),
          List.find?_cons_of_pos _ (by simpa using (hkey ▸ hp))]
        simpa using hfid
      · rw [List.find?_cons_of_neg _ (by simpa using hp),
          List.find?_cons_of_neg _ (by simpa using (hkey ▸ hp))]
        exact ih l2 hrest

/-- Signature-preserving heap replacement preserves the invariant. -/
lemma invW_of_heapSig (w : World) (hp : List (ℕ × MeshData))
    (hs : heapSig hp = heapSig w.heap) (hw : InvW w) :
    InvW { w with heap := hp } := by
  refine ⟨hw.keysNodup, hw.tokensNodup, hw.tokenBound, ?_, hw.perm, ?_⟩
  · intro p hpm
    have hkeys := heapSig_keys hp w.heap hs
    have : p.1 ∈ w.heap.map Prod.fst := by
      rw [← hkeys]
      exact List.mem_map_of_mem Prod.fst hpm
    obtain ⟨q, hq, hq1⟩ := List.mem_map.mp this
    rw [← hq1]
    exact hw.heapBound q hq
  · intro p hpi
    rw [heapGet_fid_of_sig hp w.heap hs]
    exact hw.fidOk p hpi

/-- Appending a freshly allocated mesh for an id absent from the index
preserves the invariant (the common final step of `addMeshForFeature`). -/
lemma invW_extendFresh (w1 : World) (id : String) (mesh : MeshData)
    (tasks : List AnimTask) (hw : InvW w1) (hfid : mesh.fid = id)
    (hnone : idxGet w1.idx id = none) :
    InvW { nextToken := w1.nextToken + 1,
           heap := w1.heap ++ [(w1.nextToken, mesh)],
           scene := w1.scene ++ [w1.nextToken],
           idx := idxSet w1.idx id w1.nextToken,
           anims := tasks } := by
  have hkeys : ∀ p ∈ w1.idx, p.1 ≠ id := (idxGet_eq_none_iff _ _).mp hnone
  have hset : idxSet w1.idx id w1.nextToken = w1.idx ++ [(id, w1.nextToken)] :=
    idxSet_of_none _ _ _ hnone
  have hidnot : id ∉ w1.idx.map Prod.fst := by
    intro hmem
    obtain ⟨p, hp, hp1⟩ := List.mem_map.mp hmem
    exact hkeys p hp hp1
  have htoknot : w1.nextToken ∉ w1.idx.map Prod.snd := by
    intro hmem
    exact absurd (hw.tokenBound _ hmem) (lt_irrefl _)
  refine ⟨?_, ?_, ?_, ?_, ?_, ?_⟩
  · show ((idxSet w1.idx id w1.nextToken).map Prod.fst).Nodup
    rw [hset, List.map_append]
    simp only [List.map_cons, List.map_nil]
    rw [List.nodup_append]
    exact ⟨hw.keysNodup, List.nodup_singleton id, by simpa using hidnot⟩
  · show ((idxSet w1.idx id w1.nextToken).map Prod.snd).Nodup
    rw [hset, List.map_append]
    simp only [List.map_cons, List.map_nil]
    rw [List.nodup_append]
    exact ⟨hw.tokensNodup, List.nodup_singleton _, by simpa using htoknot⟩
  · intro t ht
    rw [hset, List.map_append] at ht
    rcases List.mem_append.mp ht with h1 | h1
    · exact Nat.lt_succ_of_lt (hw.tokenBound t h1)
    · have : t = w1.nextToken := by simpa using h1
      rw [this]
      exact Nat.lt_succ_self _
  · intro p hpm
    rcases List.mem_append.mp hpm with h1 | h1
    · exact Nat.lt_succ_of_lt (hw.heapBound p h1)
    · have : p = (w1.nextToken, mesh) := by simpa using h1
      rw [this]
      exact Nat.lt_succ_self _
  · show (w1.scene ++ [w1.nextToken]).Perm
      ((idxSet w1.idx id w1.nextToken).map Prod.snd)
    rw [hset, List.map_append]
    exact hw.perm.append_right _
  · intro p hpi
    rw [hset] at hpi
    rcases List.mem_append.mp hpi with h1 | h1
    · have hold := hw.fidOk p h1
      cases hg : heapGet w1.heap p.2 with
      | none => rw [hg] at hold; cases hold
      | some m0 =>
        rw [hg] at hold
        rw [heapGet_append_of_some _ _ _ _ hg]
        exact hold
    · have hpv : p = (id, w1.nextToken) := by simpa using h1
      rw [hpv]
      have : ∀ q ∈ w1.heap, q.1 ≠ w1.nextToken := by
        intro q hq heq
        exact absurd (heq ▸ hw.heapBound q hq) (lt_irrefl _)
      rw [heapGet_append_fresh _ _ _ this]
      simpa using hfid

/-- Removing the mesh found for an id (the replace step of
`addMeshForFeature`, also the body of `removeById`) preserves the
invariant. -/
lemma invW_removeFound (w : World) (id : String) (t0 : ℕ) (hw : InvW w)
    (hget : idxGet w.idx id = some t0) :
    InvW { w with scene := w.scene.erase t0, idx := idxDelete w.idx id } := by
  have hperm := idxDelete_tokens_perm w.idx id t0 hw.keysNodup hget
  have hsub := idxDelete_sublist w.idx id
  refine ⟨?_, ?_, ?_, hw.heapBound, ?_, ?_⟩
  · exact hw.keysNodup.sublist (hsub.map Prod.fst)
  · exact hw.tokensNodup.sublist (hsub.map Prod.snd)
  · intro t ht
    exact hw.tokenBound t ((hsub.map Prod.snd).mem ht)
  · show (w.scene.erase t0).Perm ((idxDelete w.idx id).map Prod.snd)
    have h1 : (w.scene.erase t0).Perm ((w.idx.map Prod.snd).erase t0) :=
      hw.perm.erase t0
    have h2 : ((w.idx.map Prod.snd).erase t0).Perm
        ((t0 :: (idxDelete w.idx id).map Prod.snd).erase t0) :=
      hperm.erase t0
    have h3 : (t0 :: (idxDelete w.idx id).map Prod.snd).erase t0
        = (idxDelete w.idx id).map Prod.snd := List.erase_cons_head t0 _
    exact (h1.trans h2).trans (by rw [h3])
  · intro p hpi
    exact hw.fidOk p (hsub.mem hpi)

/-- `addMeshForFeature` preserves the invariant. -/
lemma invW_addMesh (mtm : ℚ × ℚ → ℚ) (feat : Feature) (fresh : String)
    (now : ℚ) {w : World} (hw : InvW w) :
    InvW (addMeshForFeature mtm w feat fresh now) := by
  unfold addMeshForFeature
  cases hidx : idxGet w.idx (feat.id.getD fresh) with
  | none =>
    simp only [hidx]
    exact invW_extendFresh w _ _ _ hw rfl hidx
  | some t0 =>
    simp only [hidx]
    have hw1 := invW_removeFound w _ t0 hw hidx
    exact invW_extendFresh _ _ _ _ hw1 rfl (idxGet_idxDelete_self _ _)

/-- `removeById` preserves the invariant. -/
lemma invW_removeById (id : String) {w : World} (hw : InvW w) :
    InvW (removeById w id) := by
  unfold removeById
  cases hidx : idxGet w.idx id with
  | none => exact hw
  | some t0 => exact invW_removeFound w id t0 hw hidx

/-- Invariance under any heap replacement with the same signature, with the
animation list replaced arbitrarily (the invariant constrains neither the
scale values nor the tasks). -/
lemma invW_replaceHeapAnims (w : World) (hp : List (ℕ × MeshData))
    (tasks : List AnimTask) (hs : heapSig hp = heapSig w.heap) (hw : InvW w) :
    InvW { w with heap := hp, anims := tasks } := by
  refine ⟨hw.keysNodup, hw.tokensNodup, hw.tokenBound, ?_, hw.perm, ?_⟩
  · intro p hpm
    have hkeys := heapSig_keys hp w.heap hs
    have : p.1 ∈ w.heap.map Prod.fst := by
      rw [← hkeys]
      exact List.mem_map_of_mem Prod.fst hpm
    obtain ⟨q, hq, hq1⟩ := List.mem_map.mp this
    rw [← hq1]
    exact hw.heapBound q hq
  · intro p hpi
    rw [heapGet_fid_of_sig hp w.heap hs]
    exact hw.fidOk p hpi

/-- `updateHeight` preserves the invariant: it only rewrites
`userData.heightMeters` of one mesh and appends a task. -/
lemma invW_updateHeight (id : String) (h now : ℚ) {w : World} (hw : InvW w) :
    InvW (updateHeight w id h now) := by
  unfold updateHeight
  split
  · exact hw
  · split
    · exact hw
    · exact invW_replaceHeapAnims w
        (heapModify w.heap _ (fun m => { m with heightMeters := h })) _
        (heapSig_heapModify w.heap _ (fun m => { m with heightMeters := h })
          (fun m => rfl)) hw

/-- One animation step never changes the heap signature. -/
lemma advanceTask_heapSig (hp : List (ℕ × MeshData)) (task : AnimTask)
    (now : ℚ) : heapSig (advanceTask hp task now).1 = heapSig hp := by
  unfold advanceTask
  dsimp only
  split
  · split
    · dsimp only
      apply heapSig_heapModify
      intro m
      rfl
    · dsimp only
      apply heapSig_heapModify
      intro m
      rfl
  · rfl

/-- The animation frame fold never changes the heap signature. -/
lemma tick_fold_heapSig (now : ℚ) :
    ∀ (tasks : List AnimTask) (hp : List (ℕ × MeshData)) (acc : List AnimTask),
    heapSig ((tasks.foldl
      (fun (a : List (ℕ × MeshData) × List AnimTask) task =>
        let s := advanceTask a.1 task now
        (s.1, a.2 ++ [s.2])) (hp, acc)).1) = heapSig hp := by
  intro tasks
  induction tasks with
  | nil => intro hp acc; rfl
  | cons t ts ih =>
    intro hp acc
    rw [List.foldl_cons]
    rw [ih ((advanceTask hp t now).1) (acc ++ [(advanceTask hp t now).2])]
    exact advanceTask_heapSig hp t now

/-- `tick` preserves the invariant. -/
lemma invW_tick (now : ℚ) {w : World} (hw : InvW w) : InvW (tick w now) := by
  unfold tick
  exact invW_replaceHeapAnims w _ _ (tick_fold_heapSig now w.anims w.heap []) hw

/-- `updateSelectedBuildingProps` preserves the invariant. -/
lemma invW_updProps (sys : Sys) (selId : String) (u : PropUpdates) (now : ℚ)
    (hw : InvW sys.world) :
    InvW (updateSelectedBuildingProps sys selId u now).world := by
  unfold updateSelectedBuildingProps
  split
  · cases u.height with
    | some targetH => exact invW_updateHeight selId targetH now hw
    | none =>
      cases hc : u.color with
      | some c =>
        cases hg : idxGet sys.world.idx selId with
        | some t =>
          simp only [hc, hg]
          exact invW_replaceHeapAnims sys.world _ _
            (heapSig_heapModify _ _ _ (fun m => rfl)) hw
        | none => simp only [hc, hg]; exact hw
      | none => simp only [hc]; exact hw
  · exact hw

/-- The clear-buildings fold over the index keys empties the index and the
scene and keeps the invariant. -/
lemma clearFold_empties :
    ∀ (ks : List String) (w : World), w.idx.map Prod.fst = ks → InvW w →
      (ks.foldl removeById w).idx = [] ∧ (ks.foldl removeById w).scene = [] ∧
      InvW (ks.foldl removeById w) := by
  intro ks
  induction ks with
  | nil =>
    intro w hkeys hw
    have hidx : w.idx = [] := by
      cases h : w.idx with
      | nil => rfl
      | cons q rest => rw [h] at hkeys; cases hkeys
    have hscene : w.scene = [] := by
      have := hw.perm
      rw [hidx] at this
      simpa using this
    exact ⟨hidx, hscene, hw⟩
  | cons k ks1 ih =>
    intro w hkeys hw
    cases hidx : w.idx with
    | nil => rw [hidx] at hkeys; cases hkeys
    | cons q rest =>
      rw [hidx] at hkeys
      simp only [List.map_cons, List.cons.injEq] at hkeys
      obtain ⟨hq1, hrest⟩ := hkeys
      have hget : idxGet w.idx k = some q.2 := by
        unfold idxGet
        rw [hidx, List.find?_cons_of_pos _ (by simpa using hq1)]
        rfl
      have hrem : removeById w k = { w with scene := w.scene.erase q.2, idx := idxDelete w.idx k } := by
        unfold removeById
        rw [hget]
      have hw1 : InvW (removeById w k) := by
        rw [hrem]
        exact invW_removeFound w k q.2 hw hget
      have hkeys1 : (removeById w k).idx.map Prod.fst = ks1 := by
        rw [hrem]
        show (idxDelete w.idx k).map Prod.fst = ks1
        rw [hidx]
        unfold idxDelete
        rw [List.filter_cons_of_neg (by simpa using hq1)]
        have : List.filter (fun p => ¬ p.1 = k) rest = rest := by
          refine List.filter_eq_self.mpr (fun p hp => ?_)
          have hne : p.1 ≠ k := by
            intro hpk
            have hkmem : k ∈ rest.map Prod.fst := by
              rw [← hpk]
              exact List.mem_map_of_mem Prod.fst hp
            have hnd := hw.keysNodup
            rw [hidx] at hnd
            simp only [List.map_cons] at hnd
            exact (List.nodup_cons.mp hnd).1 (hq1 ▸ hkmem)
          simpa using hne
        rw [this, hrest]
      rw [List.foldl_cons]
      exact ih _ hkeys1 hw1

/-- The import fold over the parsed features preserves the invariant. -/
lemma invW_importFold (mtm : ℚ × ℚ → ℚ) (fresh : ℕ → String) (now : ℚ) :
    ∀ (parsed : List Feature) (acc : World × ℕ), InvW acc.1 →
      InvW ((parsed.foldl
        (fun (a : World × ℕ) f =>
          (addMeshForFeature mtm a.1 f (fresh a.2) now, a.2 + 1)) acc).1) := by
  intro parsed
  induction parsed with
  | nil => intro acc hw; exact hw
  | cons f fs ih =>
    intro acc hw
    rw [List.foldl_cons]
    exact ih _ (invW_addMesh mtm f (fresh acc.2) now hw)

/-- Every reachable system state satisfies the mesh bookkeeping
invariant. -/
lemma reachable_invW : ∀ {sys : Sys}, Reachable sys → InvW sys.world := by
  intro sys h
  induction h with
  | load store =>
    exact ⟨List.nodup_nil, List.nodup_nil, by simp [initWorld],
      by simp [initWorld], List.Perm.refl _, by simp [initWorld]⟩
  | append h mtm feat fresh anim now ih => exact invW_addMesh _ _ _ _ ih
  | deferred h id targetH now ih => exact invW_updateHeight _ _ _ ih
  | del h id ih =>
    unfold deleteSelected
    split
    · exact invW_removeById _ ih
    · exact ih
  | clear h ih =>
    exact (clearFold_empties _ _ rfl ih).2.2
  | imp h mtm parsed fresh now ih =>
    exact invW_importFold mtm fresh now parsed _ ih
  | rot h cosDeg sinDeg mtm id delta bw bd now ih =>
    unfold rotateSelectedBuilding
    split
    · exact ih
    · exact invW_addMesh _ _ _ _ (invW_removeById _ ih)
  | upd h id u now ih => exact invW_updProps _ _ _ _ ih
  | addMesh h mtm feat fresh now ih => exact invW_addMesh _ _ _ _ ih
  | frame h now ih => exact invW_tick _ ih

/-- After `addMeshForFeature` the feature id occurs exactly once among the
index keys: a duplicate add replaces, it never appends a second entry. -/
lemma addMesh_key_count (mtm : ℚ × ℚ → ℚ) (w : World) (feat : Feature)
    (fresh : String) (now : ℚ) :
    ((addMeshForFeature mtm w feat fresh now).idx.map Prod.fst).count
      (feat.id.getD fresh) = 1 := by
  unfold addMeshForFeature
  cases hidx : idxGet w.idx (feat.id.getD fresh) with
  | none =>
    simp only [hidx]
    show ((idxSet w.idx (feat.id.getD fresh) w.nextToken).map Prod.fst).count
      (feat.id.getD fresh) = 1
    rw [idxSet_of_none _ _ _ hidx, List.map_append, List.count_append]
    have h0 : (w.idx.map Prod.fst).count (feat.id.getD fresh) = 0 := by
      rw [List.count_eq_zero]
      intro hmem
      obtain ⟨p, hp, hp1⟩ := List.mem_map.mp hmem
      exact ((idxGet_eq_none_iff _ _).mp hidx) p hp hp1
    rw [h0]
    simp
  | some t0 =>
    simp only [hidx]
    show ((idxSet (idxDelete w.idx (feat.id.getD fresh)) (feat.id.getD fresh)
      w.nextToken).map Prod.fst).count (feat.id.getD fresh) = 1
    rw [idxSet_of_none _ _ _ (idxGet_idxDelete_self _ _), List.map_append,
      List.count_append]
    have h0 : ((idxDelete w.idx (feat.id.getD fresh)).map Prod.fst).count
        (feat.id.getD fresh) = 0 := by
      rw [List.count_eq_zero]
      intro hmem
      obtain ⟨p, hp, hp1⟩ := List.mem_map.mp hmem
      exact ((idxGet_eq_none_iff _ _).mp (idxGet_idxDelete_self _ _)) p hp hp1
    rw [h0]
    simp

/-- Deleting a stored feature removes its mesh from the index and from the
scene. -/
lemma deleteSelected_removes_mesh (sys : Sys) (selId : String) (t : ℕ)
    (hw : InvW sys.world)
    (hany : sys.store.any (fun f => f.id = some selId) = true)
    (hget : idxGet sys.world.idx selId = some t) :
    idxGet (deleteSelected sys selId).world.idx selId = none ∧
    t ∉ (deleteSelected sys selId).world.scene := by
  unfold deleteSelected
  rw [if_pos hany]
  constructor
  · show idxGet (removeById sys.world selId).idx selId = none
    unfold removeById
    rw [hget]
    exact idxGet_idxDelete_self _ _
  · show t ∉ (removeById sys.world selId).scene
    unfold removeById
    rw [hget]
    show t ∉ sys.world.scene.erase t
    have hnodup : sys.world.scene.Nodup :=
      (hw.perm.nodup_iff).mpr hw.tokensNodup
    intro hmem
    exact absurd rfl ((hnodup.mem_erase_iff).mp hmem).1

/-- C2 amended: at every reachable state the id→mesh index has at most one
entry per feature id, the scene holds exactly the indexed meshes (so never
two meshes for one id), and every indexed mesh carries its feature id;
adding a feature whose id already has a mesh replaces it (exactly one index
entry afterwards); deleting a stored feature removes its mesh from index and
scene; clearing removes the whole store, index and scene.  The part of the
claim that fails is import: its replace-all only adds meshes and can leave a
mesh for a feature no longer in the store (see the counterexample). -/
theorem c2_amended_mesh_bookkeeping :
    (∀ sys : Sys, Reachable sys →
      (sys.world.idx.map Prod.fst).Nodup ∧
      sys.world.scene.Perm (sys.world.idx.map Prod.snd) ∧
      (∀ p ∈ sys.world.idx,
        (heapGet sys.world.heap p.2).map MeshData.fid = some p.1)) ∧
    (∀ (mtm : ℚ × ℚ → ℚ) (w : World) (feat : Feature) (fresh : String)
      (now : ℚ),
      ((addMeshForFeature mtm w feat fresh now).idx.map Prod.fst).count
        (feat.id.getD fresh) = 1) ∧
    (∀ (sys : Sys) (selId : String) (t : ℕ), Reachable sys →
      sys.store.any (fun f => f.id = some selId) = true →
      idxGet sys.world.idx selId = some t →
      idxGet (deleteSelected sys selId).world.idx selId = none ∧
      t ∉ (deleteSelected sys selId).world.scene) ∧
    (∀ sys : Sys, Reachable sys →
      (clearBuildings sys).store = [] ∧
      (clearBuildings sys).world.idx = [] ∧
      (clearBuildings sys).world.scene = []) := by
  refine ⟨?_, addMesh_key_count, ?_, ?_⟩
  · intro sys h
    have hw := reachable_invW h
    exact ⟨hw.keysNodup, hw.perm, hw.fidOk⟩
  · intro sys selId t h hany hget
    exact deleteSelected_removes_mesh sys selId t (reachable_invW h) hany hget
  · intro sys h
    have hw := reachable_invW h
    have hc := clearFold_empties (sys.world.idx.map Prod.fst) sys.world rfl hw
    exact ⟨rfl, hc.1, hc.2.1⟩

/-- Witness for the amended C2 at the reachable state sysA1 (one appended
building), then deleting it. -/
theorem c2_amended_witness :
    ((sysA1.world.idx.map Prod.fst).Nodup ∧
      sysA1.world.scene.Perm (sysA1.world.idx.map Prod.snd) ∧
      (∀ p ∈ sysA1.world.idx,
        (heapGet sysA1.world.heap p.2).map MeshData.fid = some p.1)) ∧
    (sysA1.store.any (fun f => f.id = some "a") = true ∧
     idxGet sysA1.world.idx "a" = some 0 ∧
     idxGet (deleteSelected sysA1 "a").world.idx "a" = none ∧
     0 ∉ (deleteSelected sysA1 "a").world.scene) ∧
    ((clearBuildings sysA1).store = [] ∧
     (clearBuildings sysA1).world.idx = [] ∧
     (clearBuildings sysA1).world.scene = []) := by
  have hreach : Reachable sysA1 :=
    Reachable.append (Reachable.load []) mtmOne featA "x" false 0
  have hany : sysA1.store.any (fun f => f.id = some "a") = true := by
    norm_num [sysA1, sysInit, featA, mtmOne, appendBuildingFeature,
      addMeshForFeature, buildMeshFromPolygon, polygonCentroidCoords, jsOr,
      idxGet, idxSet, idxDelete, initWorld, List.find?]
  have hget : idxGet sysA1.world.idx "a" = some 0 := by
    norm_num [sysA1, sysInit, featA, mtmOne, appendBuildingFeature,
      addMeshForFeature, buildMeshFromPolygon, polygonCentroidCoords, jsOr,
      idxGet, idxSet, idxDelete, initWorld, List.find?]
  refine ⟨c2_amended_mesh_bookkeeping.1 sysA1 hreach, ⟨hany, hget, ?_⟩,
    c2_amended_mesh_bookkeeping.2.2.2 sysA1 hreach⟩
  exact c2_amended_mesh_bookkeeping.2.2.1 sysA1 "a" 0 hreach hany hget

end MapOverlay
